import Mathlib

/-!
Shallow embedding of the BBox Studio storage layer (`src/unnamed/part_004`
together with `src/frontend/src/storage/idb.ts`) and of the canvas
hit-testing helper (`src/unnamed/part_002`).

Modelling conventions:
* IndexedDB object stores become lists of records plus an auto-increment
  counter per store; `get` is `List.find?` on the key, `getAll` on an index
  is `List.filter`, `delete` removes the record with the given key, `put`
  replaces the record with the same key in place.
* Each exported storage function runs all of its writes inside one
  IndexedDB transaction (`withStore` / `withStores`); a thrown error aborts
  the transaction, so an operation that returns `.error` leaves the state
  exactly as it was.  Operations are therefore modelled as functions
  `DB → Except String α × DB` whose second component is the post-call
  state (the original state on error).
* `new Date().toISOString()` timestamps are modelled as abstract `Nat`
  instants passed in as a `now` parameter; sorting by
  `new Date(x).getTime()` becomes sorting by that `Nat`.
* JavaScript strings are Lean `String`s; the JS `split`, `trim`, `join`
  used by `normalizeClassesString` are re-implemented over `List Char`.
* JS numbers used for box/annotation coordinates are modelled as `Rat`.
* `File`/`Blob` contents are opaque `Nat` identifiers; directory handles
  are modelled by their presence.
-/

/-- JS whitespace test used by `String.prototype.trim` (modelled by
Lean's `Char.isWhitespace`). -/
def jsIsSpace (c : Char) : Bool := c.isWhitespace

/-- `String.prototype.trim` on a character list: drop whitespace from both
ends. -/
def jsTrimChars (l : List Char) : List Char :=
  ((l.dropWhile jsIsSpace).reverse.dropWhile jsIsSpace).reverse

/-- `String.prototype.split(sep)` with a one-character separator, on a
character list.  `"".split(",") = [""]`, matching JS. -/
def jsSplitChar (c : Char) : List Char → List (List Char)
  | [] => [[]]
  | x :: xs =>
    if x = c then [] :: jsSplitChar c xs
    else
      match jsSplitChar c xs with
      | [] => [[x]]
      | h :: t => (x :: h) :: t

/-- `Array.prototype.join(sep)` with a one-character separator, on character
lists. -/
def joinChar (c : Char) : List (List Char) → List Char
  | [] => []
  | [p] => p
  | p :: q :: ps => p ++ c :: joinChar c (q :: ps)

/-- The comma-separated parts produced inside `normalizeClassesString`:
split on `,`, trim each part, drop empty parts (`filter(Boolean)`). -/
def normalizeParts (l : List Char) : List (List Char) :=
  ((jsSplitChar ',' l).map jsTrimChars).filter (fun p => ¬ p.isEmpty)

/-- `normalizeClassesString` from `src/unnamed/part_004` lines 99-105, on a
character list: `value.split(",").map(c => c.trim()).filter(Boolean).join(",")`. -/
def normalizeChars (l : List Char) : List Char :=
  joinChar ',' (normalizeParts l)

/-- `normalizeClassesString(value)` on Lean strings. -/
def normalizeClassesString (s : String) : String :=
  ⟨normalizeChars s.data⟩

/-- `String.prototype.toLowerCase` (ASCII range, which covers the
extension comparisons it is used for). -/
def jsToLower (s : String) : String :=
  ⟨s.data.map Char.toLower⟩

/-- `String.prototype.endsWith(suffix)`. -/
def jsEndsWith (s suffix : String) : Bool :=
  List.isPrefixOf suffix.data.reverse s.data.reverse

/-- `isImageFilename` from `src/unnamed/part_004` lines 250-261. -/
def isImageFilename (name : String) : Bool :=
  let lower := jsToLower name
  jsEndsWith lower ".jpg" || jsEndsWith lower ".jpeg" ||
    jsEndsWith lower ".png" || jsEndsWith lower ".webp" ||
    jsEndsWith lower ".gif" || jsEndsWith lower ".bmp" ||
    jsEndsWith lower ".avif"

/-- Strip a final `.ext` (regex `\.[^.]+$`): remove the last dot and
everything after it, provided at least one non-dot character follows that
dot. -/
def stripExtChars (l : List Char) : List Char :=
  let r := l.reverse
  let ext := r.takeWhile (fun c => c ≠ '.')
  if ext.length = r.length then l
  else if ext.length = 0 then l
  else (r.drop (ext.length + 1)).reverse

/-- `neurovaStem` from `src/unnamed/part_004` lines 544-547:
`filename.split("/").pop() ?? filename`, then drop the final extension. -/
def neurovaStem (filename : String) : String :=
  let base := (jsSplitChar '/' filename.data).getLastD filename.data
  ⟨stripExtChars base⟩

/-- The UI shape of a project (`Project` interface, lines 11-18): the stored
record with the non-serializable `root_handle` stripped. -/
structure Project where
  id : Nat
  name : String
  description : Option String
  classes : String
  created_at : Nat
  updated_at : Nat
deriving Repr, DecidableEq

/-- A stored project record (`ProjectRecord`, lines 44-46): a `Project` plus
an optional directory handle (`none` models both `null` and absent). -/
structure ProjectRecord where
  id : Nat
  name : String
  description : Option String
  classes : String
  created_at : Nat
  updated_at : Nat
  root_handle : Option Unit
deriving Repr, DecidableEq

/-- Drop `root_handle` from a stored project record (the
`const { root_handle: _root, ...rest } = p` pattern). -/
def stripHandle (p : ProjectRecord) : Project :=
  { id := p.id, name := p.name, description := p.description,
    classes := p.classes, created_at := p.created_at,
    updated_at := p.updated_at }

/-- The UI shape of an image (`Image` interface, lines 20-28). -/
structure Image where
  id : Nat
  project_id : Nat
  filename : String
  file_path : String
  width : Option Nat
  height : Option Nat
  created_at : Nat
deriving Repr, DecidableEq

/-- A stored image record (`ImageRecord`, lines 48-51): an `Image` plus an
optional blob (opaque content id) and an optional file handle (modelled by
the file's path). -/
structure ImageRecord where
  id : Nat
  project_id : Nat
  filename : String
  file_path : String
  width : Option Nat
  height : Option Nat
  created_at : Nat
  blob : Option Nat
  file_handle : Option String
deriving Repr, DecidableEq

/-- The UI shape of a stored image record. -/
def toImage (im : ImageRecord) : Image :=
  { id := im.id, project_id := im.project_id, filename := im.filename,
    file_path := im.file_path, width := im.width, height := im.height,
    created_at := im.created_at }

/-- An annotation record (`Annotation` interface, lines 30-40). -/
structure Annotation where
  id : Nat
  image_id : Nat
  class_id : Nat
  x_center : Rat
  y_center : Rat
  width : Rat
  height : Rat
  created_at : Nat
  updated_at : Nat
deriving Repr, DecidableEq

/-- The caller-supplied fields of `createAnnotation` / `updateAnnotation`
(`Omit<Annotation, "id" | "image_id" | "created_at" | "updated_at">`). -/
structure AnnData where
  class_id : Nat
  x_center : Rat
  y_center : Rat
  width : Rat
  height : Rat
deriving Repr, DecidableEq

/-- An uploaded `File`: its name plus an opaque content id. -/
structure JsFile where
  name : String
  content : Nat
deriving Repr, DecidableEq

/-- The three object stores of the `bbox-studio` database plus their
auto-increment key generators. -/
structure DB where
  projects : List ProjectRecord
  images : List ImageRecord
  annotations : List Annotation
  nextProjectId : Nat
  nextImageId : Nat
  nextAnnId : Nat
deriving Repr, DecidableEq

/-- A freshly created (or freshly deleted) `bbox-studio` database. -/
def emptyDB : DB :=
  { projects := [], images := [], annotations := [],
    nextProjectId := 1, nextImageId := 1, nextAnnId := 1 }

/-- Descending sort by a `Nat` key, modelling
`.sort((a, b) => new Date(b.created_at).getTime() - new Date(a.created_at).getTime())`.
JS `Array.prototype.sort` is a stable comparator sort; a stable sort's
output is determined by the comparator, so it is modelled by the stable
`List.insertionSort`. -/
def sortByCreatedDesc (key : α → Nat) (l : List α) : List α :=
  List.insertionSort (fun a b => key b ≤ key a) l

/-- IndexedDB `store.put` on the projects store when the key is already
present: replace the record with the same key in place. -/
def putProject (r : ProjectRecord) (l : List ProjectRecord) : List ProjectRecord :=
  l.map (fun p => if p.id = r.id then r else p)

/-- IndexedDB `store.put` on the annotations store when the key is already
present. -/
def putAnnotation (r : Annotation) (l : List Annotation) : List Annotation :=
  l.map (fun a => if a.id = r.id then r else a)

/-- `getProjects()` (lines 108-124): read all project records, strip
`root_handle`, sort by `created_at` descending. -/
def getProjects (s : DB) : Except String (List Project) × DB :=
  (.ok (sortByCreatedDesc Project.created_at (s.projects.map stripHandle)), s)

/-- `getProject(id)` (lines 126-134). -/
def getProject (id : Nat) (s : DB) : Except String Project × DB :=
  match s.projects.find? (fun p => p.id = id) with
  | none => (.error "Project not found", s)
  | some item => (.ok (stripHandle item), s)

/-- `createProject(data)` (lines 136-169). -/
def createProject (now : Nat) (name : String) (description : Option String)
    (classes : String) (s : DB) : Except String Project × DB :=
  let record : ProjectRecord :=
    { id := s.nextProjectId, name := name, description := description,
      classes := normalizeClassesString classes,
      created_at := now, updated_at := now, root_handle := none }
  (.ok (stripHandle record),
   { s with projects := s.projects ++ [record],
            nextProjectId := s.nextProjectId + 1 })

/-- `updateProject(id, data)` (lines 171-206); an absent field of `data` is
an outer `none`. -/
def updateProject (now : Nat) (id : Nat) (name : Option String)
    (description : Option (Option String)) (classes : Option String)
    (s : DB) : Except String Project × DB :=
  match s.projects.find? (fun p => p.id = id) with
  | none => (.error "Project not found", s)
  | some existing =>
    let next : ProjectRecord :=
      { existing with
        name := name.getD existing.name,
        description := match description with
          | none => existing.description
          | some d => d,
        classes := match classes with
          | none => existing.classes
          | some c => normalizeClassesString c,
        updated_at := now }
    (.ok (stripHandle next), { s with projects := putProject next s.projects })

/-- The cascade loop of `deleteProject` (lines 229-242): for each image of
the project, delete the image by key, then delete each annotation whose
`image_id` equals the image's id by key. -/
def cascadeDelete (imgs : List ImageRecord) (st : DB) : DB :=
  match imgs with
  | [] => st
  | img :: rest =>
    let st1 := { st with images := st.images.filter (fun im => im.id ≠ img.id) }
    let anns := st1.annotations.filter (fun a => a.image_id = img.id)
    let st2 := anns.foldl
      (fun acc a =>
        { acc with annotations := acc.annotations.filter (fun b => b.id ≠ a.id) })
      st1
    cascadeDelete rest st2

/-- `deleteProject(id)` (lines 208-247): delete the project record, then
cascade over the project's images and their annotations, all in one
read-write transaction over the three stores. -/
def deleteProject (id : Nat) (s : DB) : Except String Unit × DB :=
  let s1 := { s with projects := s.projects.filter (fun p => p.id ≠ id) }
  let projImgs := s1.images.filter (fun im => im.project_id = id)
  (.ok (), cascadeDelete projImgs s1)

/-- The list form of `getImages(projectId)` (lines 263-288): records of the
project mapped to the UI shape, sorted by `created_at` descending. -/
def getImagesList (projectId : Nat) (s : DB) : List Image :=
  sortByCreatedDesc Image.created_at
    ((s.images.filter (fun im => im.project_id = projectId)).map toImage)

/-- `getImages(projectId)` (lines 263-288). -/
def getImages (projectId : Nat) (s : DB) : Except String (List Image) × DB :=
  (.ok (getImagesList projectId s), s)

/-- One iteration of the upload loop of `uploadImages` (lines 303-326). -/
def uploadStep (now projectId : Nat) (acc : List Image × DB) (file : JsFile) :
    List Image × DB :=
  if file.name = "" ∨ isImageFilename file.name = false then acc
  else
    let record : ImageRecord :=
      { id := acc.2.nextImageId, project_id := projectId,
        filename := file.name, file_path := file.name,
        width := none, height := none, created_at := now,
        blob := some file.content, file_handle := none }
    (acc.1 ++ [toImage record],
     { acc.2 with images := acc.2.images ++ [record],
                  nextImageId := acc.2.nextImageId + 1 })

/-- `uploadImages(projectId, files)` (lines 290-332). -/
def uploadImages (now projectId : Nat) (files : List JsFile) (s : DB) :
    Except String (List Image) × DB :=
  let r := files.foldl (uploadStep now projectId) ([], s)
  (.ok r.1, r.2)

/-- The basename of a path (`walkDir` passes each entry's own name to
`isImageFilename`). -/
def pathBasename (p : String) : String :=
  ⟨(jsSplitChar '/' p.data).getLastD p.data⟩

/-- `walkDir` (lines 334-352) as a function of the folder's file paths in
traversal order: keep the paths whose basename is an image filename. -/
def walkDirPaths (paths : List String) : List String :=
  paths.filter (fun p => isImageFilename (pathBasename p))

/-- One iteration of the import loop of `importImagesFromFolder`
(lines 398-414); the accumulator carries the known-name list, the count and
the store state. -/
def importStep (now projectId : Nat) (acc : List String × Nat × DB)
    (path : String) : List String × Nat × DB :=
  if acc.1.contains path then acc
  else
    let record : ImageRecord :=
      { id := acc.2.2.nextImageId, project_id := projectId,
        filename := path, file_path := path,
        width := none, height := none, created_at := now,
        blob := none, file_handle := some path }
    (acc.1 ++ [path], acc.2.1 + 1,
     { acc.2.2 with images := acc.2.2.images ++ [record],
                    nextImageId := acc.2.2.nextImageId + 1 })

/-- `importImagesFromFolder(projectId)` (lines 354-420), with the picked
folder's file paths supplied as `dirPaths`: persist the folder handle on
the project, then add every image path not already present by filename. -/
def importImagesFromFolder (now projectId : Nat) (dirPaths : List String)
    (s : DB) : Except String Nat × DB :=
  match s.projects.find? (fun p => p.id = projectId) with
  | none => (.error "Project not found", s)
  | some project =>
    let existingNames :=
      (s.images.filter (fun im => im.project_id = projectId)).map
        ImageRecord.filename
    let project2 := { project with root_handle := some (), updated_at := now }
    let s1 := { s with projects := putProject project2 s.projects }
    let r := (walkDirPaths dirPaths).foldl (importStep now projectId)
      (existingNames, 0, s1)
    (.ok r.2.1, r.2.2)

/-- Where `getImageBlob` found the image's bytes. -/
inductive BlobSource where
  | stored (b : Nat)
  | fromHandle (h : String)
deriving Repr, DecidableEq

/-- `getImageBlob(imageId)` (lines 422-453). -/
def getImageBlob (imageId : Nat) (s : DB) : Except String BlobSource × DB :=
  match s.images.find? (fun im => im.id = imageId) with
  | none => (.error "Image not found", s)
  | some im =>
    match im.blob with
    | some b => (.ok (.stored b), s)
    | none =>
      match im.file_handle with
      | some h => (.ok (.fromHandle h), s)
      | none => (.error "Image data missing", s)

/-- The list form of `getAnnotations(imageId)` (lines 456-467): the
annotation records whose `image_id` index key equals `imageId`, as stored. -/
def getAnnotationsList (imageId : Nat) (s : DB) : List Annotation :=
  s.annotations.filter (fun a => a.image_id = imageId)

/-- `getAnnotations(imageId)` (lines 456-467). -/
def getAnnotations (imageId : Nat) (s : DB) :
    Except String (List Annotation) × DB :=
  (.ok (getAnnotationsList imageId s), s)

/-- `createAnnotation(imageId, data)` (lines 469-499). -/
def createAnnotation (now imageId : Nat) (data : AnnData) (s : DB) :
    Except String Annotation × DB :=
  let record : Annotation :=
    { id := s.nextAnnId, image_id := imageId, class_id := data.class_id,
      x_center := data.x_center, y_center := data.y_center,
      width := data.width, height := data.height,
      created_at := now, updated_at := now }
  (.ok record,
   { s with annotations := s.annotations ++ [record],
            nextAnnId := s.nextAnnId + 1 })

/-- `updateAnnotation(annotationId, data)` (lines 501-529). -/
def updateAnnotation (now annotationId : Nat) (data : AnnData) (s : DB) :
    Except String Annotation × DB :=
  match s.annotations.find? (fun a => a.id = annotationId) with
  | none => (.error "Annotation not found", s)
  | some existing =>
    let next : Annotation :=
      { existing with
          class_id := data.class_id,
          x_center := data.x_center, y_center := data.y_center,
          width := data.width, height := data.height, updated_at := now }
    (.ok next, { s with annotations := putAnnotation next s.annotations })

/-- `deleteAnnotation(annotationId)` (lines 531-541). -/
def deleteAnnotation (annotationId : Nat) (s : DB) : Except String Unit × DB :=
  (.ok (), { s with annotations :=
      s.annotations.filter (fun a => a.id ≠ annotationId) })

/-- A zip archive as JSZip holds it: named entries, `zip.file(name, c)`
replacing an existing entry of the same name. -/
def zipFile (name content : String) (z : List (String × String)) :
    List (String × String) :=
  if z.any (fun e => e.1 = name) then
    z.map (fun e => if e.1 = name then (name, content) else e)
  else z ++ [(name, content)]

/-- One label line: `class_id x_center y_center width height`. -/
def annLine (a : Annotation) : String :=
  toString a.class_id ++ " " ++ toString a.x_center ++ " " ++
    toString a.y_center ++ " " ++ toString a.width ++ " " ++
    toString a.height

/-- The content of one `labels/<stem>.txt` entry. -/
def labelContent (anns : List Annotation) : String :=
  String.intercalate "\n" (anns.map annLine) ++ "\n"

/-- The content of `classes.txt` for a given class list. -/
def classesContent (classes : List String) : String :=
  String.intercalate "\n" classes ++ (if classes.length ≠ 0 then "\n" else "")

/-- The class list exported by `exportNeurova`:
`normalizeClassesString(project.classes).split(",").filter(Boolean)`. -/
def exportClasses (classes : String) : List String :=
  (((jsSplitChar ',' (normalizeClassesString classes).data).map
    (fun l => (⟨l⟩ : String))).filter (fun c => c ≠ ""))

/-- The fold of `exportNeurova` over the project's images (lines 569-580). -/
def exportLabelFiles (s : DB) (imgs : List Image)
    (z : List (String × String)) : List (String × String) :=
  imgs.foldl
    (fun acc img =>
      let anns := getAnnotationsList img.id s
      if anns.length = 0 then acc
      else zipFile ("labels/" ++ neurovaStem img.filename ++ ".txt")
        (labelContent anns) acc)
    z

/-- `exportNeurova(projectId)` (lines 549-584); the produced blob is the
archive's entry list. -/
def exportNeurova (projectId : Nat) (s : DB) :
    Except String (List (String × String)) × DB :=
  match s.projects.find? (fun p => p.id = projectId) with
  | none => (.error "Project not found", s)
  | some project =>
    let images := getImagesList projectId s
    let classes := exportClasses project.classes
    let z0 := zipFile "classes.txt" (classesContent classes) []
    (.ok (exportLabelFiles s images z0), s)

/-- `clearAllLocalData()` (lines 586-610): delete the whole database. -/
def clearAllLocalData (_s : DB) : Except String Unit × DB :=
  (.ok (), emptyDB)

/-- A canvas box (`Box` interface of `src/unnamed/part_002` lines 73-80),
with normalized `Rat` coordinates. -/
structure Box where
  classId : Nat
  x : Rat
  y : Rat
  width : Rat
  height : Rat
deriving Repr, DecidableEq

/-- The containment test of one loop iteration of `hitTestBoxIndex`
(lines 325-329): normalize the rectangle with `min`/`max`, boundary
inclusive. -/
def containsPoint (b : Box) (x y : Rat) : Bool :=
  let x1 := min b.x (b.x + b.width)
  let y1 := min b.y (b.y + b.height)
  let x2 := max b.x (b.x + b.width)
  let y2 := max b.y (b.y + b.height)
  decide (x1 ≤ x) && decide (x ≤ x2) && decide (y1 ≤ y) && decide (y ≤ y2)

/-- The descending loop of `hitTestBoxIndex`: try index `i - 1`, then
`i - 2`, ... -/
def hitLoop (x y : Rat) (boxes : List Box) : Nat → Option Nat
  | 0 => none
  | i + 1 =>
    match boxes.get? i with
    | some b => if containsPoint b x y then some i else hitLoop x y boxes i
    | none => hitLoop x y boxes i

/-- `hitTestBoxIndex(x, y)` (`src/unnamed/part_002` lines 321-332): the
last (topmost) box containing the normalized point, else `null`. -/
def hitTestBoxIndex (x y : Rat) (boxes : List Box) : Option Nat :=
  hitLoop x y boxes boxes.length

/-- One call into the storage layer, with all of its inputs. -/
inductive StorageOp where
  | getProjects
  | getProject (id : Nat)
  | createProject (now : Nat) (name : String) (description : Option String)
      (classes : String)
  | updateProject (now id : Nat) (name : Option String)
      (description : Option (Option String)) (classes : Option String)
  | deleteProject (id : Nat)
  | getImages (projectId : Nat)
  | uploadImages (now projectId : Nat) (files : List JsFile)
  | importImagesFromFolder (now projectId : Nat) (dirPaths : List String)
  | getImageBlob (imageId : Nat)
  | getAnnotations (imageId : Nat)
  | createAnnotation (now imageId : Nat) (data : AnnData)
  | updateAnnotation (now annotationId : Nat) (data : AnnData)
  | deleteAnnotation (annotationId : Nat)
  | exportNeurova (projectId : Nat)
  | clearAllLocalData

/-- Run a storage operation, keeping its success-or-single-error outcome
(with the returned value erased) and the post-call database state. -/
def runStorageOp : StorageOp → DB → Except String Unit × DB
  | .getProjects, s => ((getProjects s).1.map (fun _ => ()), (getProjects s).2)
  | .getProject id, s =>
    ((getProject id s).1.map (fun _ => ()), (getProject id s).2)
  | .createProject now name d c, s =>
    ((createProject now name d c s).1.map (fun _ => ()),
     (createProject now name d c s).2)
  | .updateProject now id n d c, s =>
    ((updateProject now id n d c s).1.map (fun _ => ()),
     (updateProject now id n d c s).2)
  | .deleteProject id, s =>
    ((deleteProject id s).1.map (fun _ => ()), (deleteProject id s).2)
  | .getImages pid, s =>
    ((getImages pid s).1.map (fun _ => ()), (getImages pid s).2)
  | .uploadImages now pid files, s =>
    ((uploadImages now pid files s).1.map (fun _ => ()),
     (uploadImages now pid files s).2)
  | .importImagesFromFolder now pid paths, s =>
    ((importImagesFromFolder now pid paths s).1.map (fun _ => ()),
     (importImagesFromFolder now pid paths s).2)
  | .getImageBlob imageId, s =>
    ((getImageBlob imageId s).1.map (fun _ => ()), (getImageBlob imageId s).2)
  | .getAnnotations imageId, s =>
    ((getAnnotations imageId s).1.map (fun _ => ()),
     (getAnnotations imageId s).2)
  | StorageOp.createAnnotation now imageId d, s =>
    (( createAnnotation now imageId d s).1.map (fun _ => ()),
     ( createAnnotation now imageId d s).2)
  | StorageOp.updateAnnotation now annId d, s =>
    (( updateAnnotation now annId d s).1.map (fun _ => ()),
     ( updateAnnotation now annId d s).2)
  | StorageOp.deleteAnnotation annId, s =>
    (( deleteAnnotation annId s).1.map (fun _ => ()), ( deleteAnnotation annId s).2)
  | .exportNeurova pid, s =>
    ((exportNeurova pid s).1.map (fun _ => ()), (exportNeurova pid s).2)
  | .clearAllLocalData, s =>
    ((clearAllLocalData s).1.map (fun _ => ()), (clearAllLocalData s).2)

/-- The three entity types of the storage layer. -/
inductive Entity where
  | project
  | image
  | annotation
deriving Repr, DecidableEq

/-- The four CRUD operation kinds. -/
inductive CrudKind where
  | create
  | read
  | update
  | delete
deriving Repr, DecidableEq

/-- Classify each storage operation as a CRUD operation on one entity type
(`none` for the export and the wipe-everything routine). -/
def crudOf : StorageOp → Option (Entity × CrudKind)
  | .getProjects => some (.project, .read)
  | .getProject _ => some (.project, .read)
  | .createProject _ _ _ _ => some (.project, .create)
  | .updateProject _ _ _ _ _ => some (.project, .update)
  | .deleteProject _ => some (.project, .delete)
  | .getImages _ => some (.image, .read)
  | .uploadImages _ _ _ => some (.image, .create)
  | .importImagesFromFolder _ _ _ => some (.image, .create)
  | .getImageBlob _ => some (.image, .read)
  | .getAnnotations _ => some ( Entity.annotation, .read)
  | StorageOp.createAnnotation _ _ _ => some ( Entity.annotation, .create)
  | StorageOp.updateAnnotation _ _ _ => some ( Entity.annotation, .update)
  | StorageOp.deleteAnnotation _ => some ( Entity.annotation, .delete)
  | .exportNeurova _ => none
  | .clearAllLocalData => none

/-- Invariant: every stored project's `classes` field is a fixed point of
`normalizeClassesString`. -/
def ClassesNormalized (s : DB) : Prop :=
  ∀ p ∈ s.projects, normalizeClassesString p.classes = p.classes

/-! ## Basic facts about the read operations and transaction atomicity -/

theorem find?_eq_none_of_forall_ne {l : List ProjectRecord} {id : Nat}
    (h : ∀ p ∈ l, p.id ≠ id) : l.find? (fun p => p.id = id) = none := by
  rw [List.find?_eq_none]
  intro p hp
  simpa using h p hp

/-- C5: `getProject(id)` throws the single error `'Project not found'` iff
no project record with key `id` exists; when the record exists it returns
that record with `root_handle` removed and the other stored fields
unchanged; in either case no store is modified. -/
theorem getProject_spec (id : Nat) (s : DB) :
    (getProject id s).2 = s ∧
    ((getProject id s).1 = Except.error "Project not found" ↔
      ∀ p ∈ s.projects, p.id ≠ id) ∧
    (∀ p, s.projects.find? (fun q => q.id = id) = some p →
      (getProject id s).1 = Except.ok (stripHandle p)) := by
  unfold getProject
  rcases h : s.projects.find? (fun p => p.id = id) with _ | p <;> rw [h]
  · refine ⟨rfl, ⟨fun _ => ?_, fun _ => rfl⟩, fun q hq => ?_⟩
    · intro p hp hid
      have := List.find?_eq_none.mp h p hp
      simp [hid] at this
    · exact absurd hq (by simp)
  · refine ⟨rfl, ⟨fun hc => ?_, fun hall => ?_⟩, fun q hq => ?_⟩
    · exact absurd hc (by simp)
    · have hmem := List.mem_of_find?_eq_some h
      have hid : p.id = id := by simpa using List.find?_some h
      exact absurd hid (hall p hmem)
    · cases hq
      rfl

/-- Witness for `getProject_spec` at a database holding project 1. -/
theorem getProject_spec_witness :
    (getProject 1 (createProject 10 "p1" none " cat, dog " emptyDB).2).1 =
      Except.ok (stripHandle
        { id := 1, name := "p1", description := none, classes := "cat,dog",
          created_at := 10, updated_at := 10, root_handle := none }) :=
  (getProject_spec 1 (createProject 10 "p1" none " cat, dog " emptyDB).2).2.2
    { id := 1, name := "p1", description := none, classes := "cat,dog",
      created_at := 10, updated_at := 10, root_handle := none }
    rfl

/-- C7: `getAnnotations(imageId)` is a pass-through read: it returns
exactly the stored annotation records whose `image_id` equals `imageId`,
unmodified, and it modifies no store. -/
theorem getAnnotations_spec (imageId : Nat) (s : DB) :
    (getAnnotations imageId s).2 = s ∧
    (getAnnotations imageId s).1 =
      Except.ok (s.annotations.filter (fun a => a.image_id = imageId)) ∧
    (∀ a, a ∈ getAnnotationsList imageId s ↔
      a ∈ s.annotations ∧ a.image_id = imageId) := by
  refine ⟨rfl, rfl, fun a => ?_⟩
  simp [getAnnotationsList]

/-- Witness for `getAnnotations_spec` on a two-annotation store. -/
theorem getAnnotations_spec_witness :
    (getAnnotations 1
      ( createAnnotation 60 2 ⟨1, 1/8, 1/8, 1/2, 3/4⟩
        ( createAnnotation 50 1 ⟨0, 1/2, 1/2, 1/4, 1/4⟩ emptyDB).2).2).1 =
      Except.ok [⟨1, 1, 0, 1/2, 1/2, 1/4, 1/4, 50, 50⟩] := by
  have h := (getAnnotations_spec 1
    ( createAnnotation 60 2 ⟨1, 1/8, 1/8, 1/2, 3/4⟩
      ( createAnnotation 50 1 ⟨0, 1/2, 1/2, 1/4, 1/4⟩ emptyDB).2).2).2.1
  rw [h]
  rfl

/-- C2: every storage operation either succeeds or surfaces exactly one
error (`Except` outcome), and every operation runs its writes inside a
single transaction: when it surfaces an error, the enclosing transaction
aborts and the project, image and annotation stores are exactly as they
were before the call. -/
theorem storageOp_atomic (op : StorageOp) (s : DB) (e : String)
    (h : (runStorageOp op s).1 = Except.error e) :
    (runStorageOp op s).2 = s := by
  cases op <;>
    simp only [runStorageOp, getProjects, getProject, createProject,
      updateProject, deleteProject, getImages, uploadImages,
      importImagesFromFolder, getImageBlob, getAnnotations,
      createAnnotation, updateAnnotation, deleteAnnotation, exportNeurova,
      clearAllLocalData] at h ⊢
  case getProject id =>
    rcases hf : s.projects.find? (fun p => p.id = id) with _ | p <;>
      simp [hf, Except.map] at h ⊢
  case updateProject now id n d c =>
    rcases hf : s.projects.find? (fun p => p.id = id) with _ | p <;>
      simp [hf, Except.map] at h ⊢
  case importImagesFromFolder now pid paths =>
    rcases hf : s.projects.find? (fun p => p.id = pid) with _ | p <;>
      simp [hf, Except.map] at h ⊢
  case getImageBlob imageId =>
    rcases hf : s.images.find? (fun im => im.id = imageId) with _ | im
    · simp [hf, Except.map] at h ⊢
    · rcases hb : im.blob with _ | b
      · rcases hh : im.file_handle with _ | fh <;>
          simp [hf, hb, hh, Except.map] at h ⊢
      · simp [hf, hb, Except.map] at h
  case updateAnnotation now annId d =>
    rcases hf : s.annotations.find? (fun a => a.id = annId) with _ | a <;>
      simp [hf, Except.map] at h ⊢
  case exportNeurova pid =>
    rcases hf : s.projects.find? (fun p => p.id = pid) with _ | p <;>
      simp [hf, Except.map] at h ⊢
  all_goals simp [Except.map] at h

/-- Witness for `storageOp_atomic`: updating a missing project surfaces an
error and leaves the store untouched. -/
theorem storageOp_atomic_witness :
    (runStorageOp (.updateProject 0 99 none none none)
      (createProject 10 "p1" none "c" emptyDB).2).1 =
        Except.error "Project not found" ∧
    (runStorageOp (.updateProject 0 99 none none none)
      (createProject 10 "p1" none "c" emptyDB).2).2 =
        (createProject 10 "p1" none "c" emptyDB).2 :=
  ⟨rfl,
   storageOp_atomic (.updateProject 0 99 none none none)
     (createProject 10 "p1" none "c" emptyDB).2 "Project not found" rfl⟩

/-! ## Hit testing -/

theorem hitLoop_some {x y : Rat} {boxes : List Box} :
    ∀ {n i : Nat}, hitLoop x y boxes n = some i →
      i < n ∧ (∃ b, boxes.get? i = some b ∧ containsPoint b x y = true) ∧
      ∀ j, i < j → j < n → ∀ b, boxes.get? j = some b →
        containsPoint b x y = false := by
  intro n
  induction n with
  | zero => intro i h; simp [hitLoop] at h
  | succ m ih =>
    intro i h
    simp only [hitLoop] at h
    rcases hg : boxes.get? m with _ | b <;> simp only [hg] at h
    · obtain ⟨h1, h2, h3⟩ := ih h
      refine ⟨Nat.lt_succ_of_lt h1, h2, fun j hij hjm b' hb' => ?_⟩
      rcases Nat.lt_succ_iff_lt_or_eq.mp hjm with hj | rfl
      · exact h3 j hij hj b' hb'
      · rw [hg] at hb'; cases hb'
    · rcases hc : containsPoint b x y <;>
        simp only [hc, Bool.false_eq_true, if_false, if_true] at h
      · obtain ⟨h1, h2, h3⟩ := ih h
        refine ⟨Nat.lt_succ_of_lt h1, h2, fun j hij hjm b' hb' => ?_⟩
        rcases Nat.lt_succ_iff_lt_or_eq.mp hjm with hj | rfl
        · exact h3 j hij hj b' hb'
        · rw [hg] at hb'; cases hb'; exact hc
      · cases h
        refine ⟨Nat.lt_succ_self _, ⟨b, hg, hc⟩, fun j hij hjm b' hb' => ?_⟩
        omega

theorem hitLoop_none {x y : Rat} {boxes : List Box} :
    ∀ {n : Nat}, hitLoop x y boxes n = none →
      ∀ j, j < n → ∀ b, boxes.get? j = some b → containsPoint b x y = false := by
  intro n
  induction n with
  | zero => intro _ j hj; omega
  | succ m ih =>
    intro h j hj b hb
    simp only [hitLoop] at h
    rcases hg : boxes.get? m with _ | b' <;> simp only [hg] at h
    · rcases Nat.lt_succ_iff_lt_or_eq.mp hj with hj' | rfl
      · exact ih h j hj' b hb
      · rw [hg] at hb; cases hb
    · rcases hc : containsPoint b' x y <;>
        simp only [hc, Bool.false_eq_true, if_false, if_true] at h
      · rcases Nat.lt_succ_iff_lt_or_eq.mp hj with hj' | rfl
        · exact ih h j hj' b hb
        · rw [hg] at hb; cases hb; exact hc
      · cases h

/-- C6: `hitTestBoxIndex` returns the largest index of a box containing the
normalized point — rectangles normalized with `min`/`max` so negative
widths/heights are handled, boundaries inclusive — and `null` (`none`) when
no box contains it. -/
theorem hitTestBoxIndex_spec (x y : Rat) (boxes : List Box) :
    (hitTestBoxIndex x y boxes = none ↔
      ∀ b ∈ boxes, containsPoint b x y = false) ∧
    ∀ i, hitTestBoxIndex x y boxes = some i →
      ∃ h : i < boxes.length,
        containsPoint (boxes.get ⟨i, h⟩) x y = true ∧
        ∀ j (hj : j < boxes.length), i < j →
          containsPoint (boxes.get ⟨j, hj⟩) x y = false := by
  constructor
  · constructor
    · intro h b hb
      obtain ⟨j, hj⟩ := List.mem_iff_get?.mp hb
      have hjlen : j < boxes.length := (List.get?_eq_some.mp hj).1
      exact hitLoop_none h j hjlen b hj
    · intro hall
      rcases h : hitTestBoxIndex x y boxes with _ | i
      · rfl
      · obtain ⟨_, ⟨b, hb, hc⟩, _⟩ := hitLoop_some h
        have : b ∈ boxes := List.get?_mem hb
        rw [hall b this] at hc
        cases hc
  · intro i h
    obtain ⟨h1, ⟨b, hb, hc⟩, h3⟩ := hitLoop_some h
    obtain ⟨hlen, hget⟩ := List.get?_eq_some.mp hb
    refine ⟨hlen, ?_, fun j hj hij => ?_⟩
    · rw [hget]; exact hc
    · exact h3 j hij hj (boxes.get ⟨j, hj⟩) (List.get?_eq_get hj)

/-- Witness for `hitTestBoxIndex_spec`: two overlapping boxes (the second
with negative width/height spanning the same region); the point hits the
topmost, and a faraway point hits none. -/
theorem hitTestBoxIndex_spec_witness :
    hitTestBoxIndex (1/4) (1/4) [⟨0, 0, 0, 1/2, 1/2⟩, ⟨1, 1/2, 1/2, -1/2, -1/2⟩] =
      some 1 ∧
    hitTestBoxIndex (9/10) (9/10) [⟨0, 0, 0, 1/2, 1/2⟩, ⟨1, 1/2, 1/2, -1/2, -1/2⟩] =
      none ∧
    containsPoint ⟨1, 1/2, 1/2, -1/2, -1/2⟩ (1/4) (1/4) = true := by
  refine ⟨?_, ?_, ?_⟩
  · simp only [hitTestBoxIndex, hitLoop, containsPoint, List.get?, List.length]
    norm_num
  · refine (hitTestBoxIndex_spec (9/10) (9/10)
      [⟨0, 0, 0, 1/2, 1/2⟩, ⟨1, 1/2, 1/2, -1/2, -1/2⟩]).1.mpr ?_
    intro b hb
    simp only [List.mem_cons, List.not_mem_nil, or_false] at hb
    rcases hb with rfl | rfl <;> simp only [containsPoint] <;> norm_num
  · simp only [containsPoint]
    norm_num

/-! ## Sorting of list reads -/

theorem pairwise_sortByCreatedDesc (key : α → Nat) (l : List α) :
    (sortByCreatedDesc key l).Pairwise (fun a b => key b ≤ key a) := by
  haveI : IsTotal α (fun a b => key b ≤ key a) :=
    ⟨fun a b => (Nat.le_total (key b) (key a)).elim Or.inl Or.inr⟩
  haveI : IsTrans α (fun a b => key b ≤ key a) :=
    ⟨fun _ _ _ hab hbc => Nat.le_trans hbc hab⟩
  exact List.sorted_insertionSort _ l

theorem perm_sortByCreatedDesc (key : α → Nat) (l : List α) :
    (sortByCreatedDesc key l).Perm l :=
  List.perm_insertionSort _ l

/-- C10: `getProjects()` and `getImages(projectId)` return exactly their
(stripped/UI-shaped) records sorted by `created_at` in descending order,
whatever the insertion order in the store. -/
theorem reads_sorted_desc (s : DB) (projectId : Nat) :
    ((getProjects s).2 = s ∧
      ∀ ps, (getProjects s).1 = Except.ok ps →
        ps.Pairwise (fun a b => b.created_at ≤ a.created_at) ∧
        ps.Perm (s.projects.map stripHandle)) ∧
    ((getImages projectId s).2 = s ∧
      ∀ ims, (getImages projectId s).1 = Except.ok ims →
        ims.Pairwise (fun a b => b.created_at ≤ a.created_at) ∧
        ims.Perm ((s.images.filter
          (fun im => im.project_id = projectId)).map toImage)) := by
  refine ⟨⟨rfl, fun ps hps => ?_⟩, ⟨rfl, fun ims hims => ?_⟩⟩
  · cases hps
    exact ⟨pairwise_sortByCreatedDesc _ _, perm_sortByCreatedDesc _ _⟩
  · cases hims
    exact ⟨pairwise_sortByCreatedDesc _ _, perm_sortByCreatedDesc _ _⟩

/-- Witness for `reads_sorted_desc`: three projects created at instants
10, 30, 20 come back ordered 30, 20, 10. -/
theorem reads_sorted_desc_witness :
    (getProjects (createProject 20 "c" none "" (createProject 30 "b" none ""
        (createProject 10 "a" none "" emptyDB).2).2).2).1 =
      Except.ok
        [⟨2, "b", none, "", 30, 30⟩, ⟨3, "c", none, "", 20, 20⟩,
         ⟨1, "a", none, "", 10, 10⟩] ∧
    List.Pairwise (fun a b => Project.created_at b ≤ Project.created_at a)
      [(⟨2, "b", none, "", 30, 30⟩ : Project), ⟨3, "c", none, "", 20, 20⟩,
       ⟨1, "a", none, "", 10, 10⟩] :=
  ⟨rfl,
   ((reads_sorted_desc (createProject 20 "c" none "" (createProject 30 "b"
      none "" (createProject 10 "a" none "" emptyDB).2).2).2 0).1.2
     [⟨2, "b", none, "", 30, 30⟩, ⟨3, "c", none, "", 20, 20⟩,
      ⟨1, "a", none, "", 10, 10⟩] rfl).1⟩

/-! ## Image upload -/

/-- The record stored by one accepted upload iteration. -/
def uploadRecord (now projectId nid : Nat) (f : JsFile) : ImageRecord :=
  { id := nid, project_id := projectId, filename := f.name,
    file_path := f.name, width := none, height := none, created_at := now,
    blob := some f.content, file_handle := none }

/-- The records stored for a run of accepted uploads with consecutive
auto-increment keys starting at `nid`. -/
def uploadRecords (now projectId : Nat) : Nat → List JsFile → List ImageRecord
  | _, [] => []
  | nid, f :: fs =>
    uploadRecord now projectId nid f ::
      uploadRecords now projectId (nid + 1) fs

/-- The upload filter: a file is kept iff its name is non-empty and is an
image filename. -/
def keepFile (f : JsFile) : Bool :=
  decide (f.name ≠ "") && isImageFilename f.name

theorem uploadImages_foldl (now projectId : Nat) :
    ∀ (files : List JsFile) (out : List Image) (st : DB),
      files.foldl (uploadStep now projectId) (out, st) =
        (out ++ (uploadRecords now projectId st.nextImageId
            (files.filter keepFile)).map toImage,
         { st with
             images := st.images ++ uploadRecords now projectId
               st.nextImageId (files.filter keepFile),
             nextImageId := st.nextImageId +
               (files.filter keepFile).length }) := by
  intro files
  induction files with
  | nil => intro out st; simp [uploadRecords]
  | cons f fs ih =>
    intro out st
    simp only [List.foldl_cons, uploadStep]
    by_cases hskip : f.name = "" ∨ isImageFilename f.name = false
    · rw [if_pos hskip]
      have hk : keepFile f = false := by
        rcases hskip with h | h <;> simp [keepFile, h]
      rw [ih out st]
      simp [List.filter_cons, hk]
    · rw [if_neg hskip]
      push_neg at hskip
      have hk : keepFile f = true := by
        simp [keepFile, hskip.1, hskip.2]
      rw [ih, Prod.ext_iff]
      simp only [List.filter_cons, hk, if_true, uploadRecords]
      refine ⟨by simp [uploadRecord, List.append_assoc], ?_⟩
      simp [uploadRecord, List.append_assoc, DB.mk.injEq]
      try omega

theorem uploadRecords_filenames (now projectId : Nat) :
    ∀ (nid : Nat) (fs : List JsFile),
      (uploadRecords now projectId nid fs).map ImageRecord.filename =
        fs.map JsFile.name := by
  intro nid fs
  induction fs generalizing nid with
  | nil => rfl
  | cons f fs ih => simp [uploadRecords, uploadRecord, ih]

/-- C9: `uploadImages(projectId, files)` inserts one image record per file
whose name is non-empty and ends (case-insensitively) in a recognised
image extension, skips the others silently, and returns exactly the
inserted records (UI shape) in input order, all carrying the given
`project_id` and consecutive fresh keys. -/
theorem uploadImages_spec (now projectId : Nat) (files : List JsFile)
    (s : DB) :
    uploadImages now projectId files s =
      (Except.ok ((uploadRecords now projectId s.nextImageId
          (files.filter keepFile)).map toImage),
       { s with
           images := s.images ++ uploadRecords now projectId s.nextImageId
             (files.filter keepFile),
           nextImageId := s.nextImageId + (files.filter keepFile).length }) ∧
    ((uploadRecords now projectId s.nextImageId
        (files.filter keepFile)).map ImageRecord.filename =
      (files.filter keepFile).map JsFile.name) ∧
    (∀ nid fs, ∀ im ∈ uploadRecords now projectId nid fs,
      im.project_id = projectId) := by
  refine ⟨?_, uploadRecords_filenames now projectId _ _, ?_⟩
  · unfold uploadImages
    rw [uploadImages_foldl]
    rfl
  · intro nid fs
    induction fs generalizing nid with
    | nil => intro im him; simp [uploadRecords] at him
    | cons f fs ih =>
      intro im him
      rcases List.mem_cons.mp him with rfl | hmem
      · rfl
      · exact ih _ im hmem

/-- Witness for `uploadImages_spec`: `a.jpg` is stored, `skip.txt` and the
empty name are skipped. -/
theorem uploadImages_spec_witness :
    (uploadImages 30 1 [⟨"a.jpg", 7⟩, ⟨"skip.txt", 8⟩, ⟨"", 9⟩]
      emptyDB).1 =
      Except.ok [⟨1, 1, "a.jpg", "a.jpg", none, none, 30⟩] ∧
    (uploadRecord 30 1 1 ⟨"a.jpg", 7⟩).project_id = 1 :=
  ⟨rfl,
   (uploadImages_spec 30 1 [⟨"a.jpg", 7⟩, ⟨"skip.txt", 8⟩, ⟨"", 9⟩]
     emptyDB).2.2 1 [⟨"a.jpg", 7⟩] (uploadRecord 30 1 1 ⟨"a.jpg", 7⟩)
     (by simp [uploadRecords])⟩

/-! ## Cascading delete -/

theorem nodup_map_filter (f : α → Nat) (p : α → Bool) {l : List α}
    (h : (l.map f).Nodup) : ((l.filter p).map f).Nodup :=
  List.Nodup.sublist (List.Sublist.map f (List.filter_sublist l)) h

/-- Key-based deletes of all elements of `l.filter p` remove exactly the
elements satisfying `p`, provided keys are unique in `l`. -/
theorem filter_not_mem_filter_map (f : α → Nat) {l : List α}
    (hnd : (l.map f).Nodup) (p : α → Bool) :
    l.filter (fun b => decide (f b ∉ (l.filter p).map f)) =
      l.filter (fun b => !(p b)) := by
  apply List.filter_congr
  intro b hb
  rcases hp : p b with _ | _
  · simp only [Bool.not_false, decide_eq_true_eq]
    intro hin
    obtain ⟨c, hc, hcid⟩ := List.mem_map.mp hin
    obtain ⟨hcl, hpc⟩ := List.mem_filter.mp hc
    have hcb : c = b := List.inj_on_of_nodup_map hnd hcl hb hcid
    rw [hcb] at hpc
    rw [hp] at hpc
    cases hpc
  · simp only [Bool.not_true]
    simp only [decide_eq_false_iff_not, not_not]
    exact List.mem_map.mpr ⟨b, List.mem_filter.mpr ⟨hb, hp⟩, rfl⟩

theorem filter_ne_filter_notmem (f : α → Nat) (k : Nat) (ks : List Nat)
    (l : List α) :
    (l.filter (fun x => f x ≠ k)).filter (fun x => decide (f x ∉ ks)) =
      l.filter (fun x => decide (f x ∉ k :: ks)) := by
  rw [List.filter_filter]
  apply List.filter_congr
  intro x _
  by_cases h : f x = k <;> by_cases h2 : f x ∈ ks <;> simp [h, h2]

/-- The inner fold of `cascadeDelete` deletes exactly the listed
annotation keys. -/
theorem cascade_ann_fold (anns : List Annotation) :
    ∀ (st : DB),
      anns.foldl (fun acc a =>
          { acc with annotations :=
              acc.annotations.filter (fun b => b.id ≠ a.id) }) st =
        { st with annotations :=
            st.annotations.filter (fun b =>
              decide (b.id ∉ anns.map Annotation.id)) } := by
  induction anns with
  | nil =>
    intro st
    rw [List.foldl_nil, List.map_nil]
    have h : (fun (b : Annotation) => decide (b.id ∉ ([] : List Nat))) =
        fun _ => true := by
      funext b
      simp
    rw [h, List.filter_true]
  | cons a anns ih =>
    intro st
    simp only [List.foldl_cons]
    rw [ih]
    simp only [DB.mk.injEq, true_and, and_true]
    rw [List.map_cons]
    exact filter_ne_filter_notmem Annotation.id a.id (anns.map Annotation.id)
      st.annotations

theorem cascadeDelete_spec :
    ∀ (imgs : List ImageRecord) (st : DB),
      (st.annotations.map Annotation.id).Nodup →
      cascadeDelete imgs st =
        { st with
            images := st.images.filter (fun im =>
              decide (im.id ∉ imgs.map ImageRecord.id)),
            annotations := st.annotations.filter (fun a =>
              decide (a.image_id ∉ imgs.map ImageRecord.id)) } := by
  intro imgs
  induction imgs with
  | nil =>
    intro st _
    rw [List.map_nil]
    have h1 : (fun (im : ImageRecord) => decide (im.id ∉ ([] : List Nat))) =
        fun _ => true := by
      funext im
      simp
    have h2 : (fun (a : Annotation) =>
        decide (a.image_id ∉ ([] : List Nat))) = fun _ => true := by
      funext a
      simp
    rw [h1, h2, List.filter_true, List.filter_true]
    rfl
  | cons img rest ih =>
    intro st hnd
    have hstep : cascadeDelete (img :: rest) st =
        cascadeDelete rest
          { st with
              images := st.images.filter (fun im => im.id ≠ img.id),
              annotations := st.annotations.filter (fun a =>
                a.image_id ≠ img.id) } := by
      simp only [cascadeDelete]
      rw [cascade_ann_fold]
      apply congrArg (cascadeDelete rest)
      simp only [DB.mk.injEq, true_and, and_true]
      rw [filter_not_mem_filter_map Annotation.id hnd
        (fun a => decide (a.image_id = img.id))]
      apply List.filter_congr
      intro a _
      by_cases h : a.image_id = img.id <;> simp [h]
    rw [hstep]
    rw [ih _ (nodup_map_filter Annotation.id _ hnd)]
    simp only [DB.mk.injEq, true_and, and_true, List.map_cons]
    constructor
    · exact filter_ne_filter_notmem ImageRecord.id img.id
        (rest.map ImageRecord.id) st.images
    · exact filter_ne_filter_notmem Annotation.image_id img.id
        (rest.map ImageRecord.id) st.annotations

/-- C1: `deleteProject(id)` removes the project record with key `id`,
every image record whose `project_id` equals `id`, and every annotation
record whose `image_id` equals the id of one of those images; every other
project, image and annotation record is left unchanged, and the call
returns ok.  The `Nodup` hypotheses state that store keys are unique,
which IndexedDB guarantees (`keyPath: "id"` with `autoIncrement`). -/
theorem deleteProject_spec (id : Nat) (s : DB)
    (himg : (s.images.map ImageRecord.id).Nodup)
    (hann : (s.annotations.map Annotation.id).Nodup) :
    deleteProject id s =
      (Except.ok (),
       { s with
           projects := s.projects.filter (fun p => p.id ≠ id),
           images := s.images.filter (fun im => im.project_id ≠ id),
           annotations := s.annotations.filter (fun a =>
             decide (∀ im ∈ s.images,
               im.project_id = id → im.id ≠ a.image_id)) }) := by
  have hc := cascadeDelete_spec
    (s.images.filter (fun im => im.project_id = id))
    { s with projects := s.projects.filter (fun p => p.id ≠ id) }
    hann
  simp only [deleteProject]
  rw [hc]
  apply congrArg (Prod.mk (Except.ok ()))
  simp only [DB.mk.injEq, true_and, and_true]
  constructor
  · rw [filter_not_mem_filter_map ImageRecord.id himg
      (fun im => decide (im.project_id = id))]
    apply List.filter_congr
    intro im _
    by_cases h : im.project_id = id <;> simp [h]
  · apply List.filter_congr
    intro a _
    rw [decide_eq_decide]
    constructor
    · intro hnotin im him hpid hid
      exact hnotin (List.mem_map.mpr
        ⟨im, List.mem_filter.mpr ⟨him, by simp [hpid]⟩, hid⟩)
    · intro hall hin
      obtain ⟨im, him, hid⟩ := List.mem_map.mp hin
      obtain ⟨himl, hpid⟩ := List.mem_filter.mp him
      exact hall im himl (by simpa using hpid) hid

/-- The database for the `deleteProject_spec` witness: two projects, two
images in project 1 and one in project 2, one annotation on an image of
each project. -/
def cascadeWitnessDB : DB :=
  { projects :=
      [⟨1, "p1", none, "cat", 10, 10, none⟩,
       ⟨2, "p2", none, "dog", 11, 11, none⟩],
    images :=
      [⟨1, 1, "a.jpg", "a.jpg", none, none, 20, some 7, none⟩,
       ⟨2, 1, "b.png", "b.png", none, none, 21, some 8, none⟩,
       ⟨3, 2, "c.gif", "c.gif", none, none, 22, some 9, none⟩],
    annotations :=
      [⟨1, 1, 0, 0, 0, 1, 1, 30, 30⟩,
       ⟨2, 3, 1, 0, 0, 1, 1, 31, 31⟩,
       ⟨3, 2, 0, 0, 0, 1, 1, 32, 32⟩],
    nextProjectId := 3, nextImageId := 4, nextAnnId := 4 }

/-- Witness for `deleteProject_spec`: deleting project 1 removes its two
images and their annotations, keeping project 2's records. -/
theorem deleteProject_spec_witness :
    deleteProject 1 cascadeWitnessDB =
      (Except.ok (),
       { projects := [⟨2, "p2", none, "dog", 11, 11, none⟩],
         images := [⟨3, 2, "c.gif", "c.gif", none, none, 22, some 9, none⟩],
         annotations := [⟨2, 3, 1, 0, 0, 1, 1, 31, 31⟩],
         nextProjectId := 3, nextImageId := 4, nextAnnId := 4 }) := by
  have h := deleteProject_spec 1 cascadeWitnessDB (by decide) (by decide)
  rw [h]
  rfl

/-! ## Normalization of the classes string -/

theorem jsSplitChar_ne_nil (c : Char) (l : List Char) :
    jsSplitChar c l ≠ [] := by
  induction l with
  | nil => simp [jsSplitChar]
  | cons x xs ih =>
    simp only [jsSplitChar]
    by_cases h : x = c
    · simp [h]
    · rw [if_neg h]
      rcases hs : jsSplitChar c xs with _ | ⟨p, ps⟩ <;> simp

theorem not_mem_of_mem_jsSplitChar (c : Char) (l : List Char) :
    ∀ p ∈ jsSplitChar c l, c ∉ p := by
  induction l with
  | nil =>
    intro p hp
    simp [jsSplitChar] at hp
    simp [hp]
  | cons x xs ih =>
    intro p hp
    simp only [jsSplitChar] at hp
    by_cases h : x = c
    · rw [if_pos h] at hp
      rcases List.mem_cons.mp hp with rfl | hmem
      · simp
      · exact ih p hmem
    · rw [if_neg h] at hp
      rcases hs : jsSplitChar c xs with _ | ⟨q, qs⟩
      · exact absurd hs (jsSplitChar_ne_nil c xs)
      · rw [hs] at hp
        rcases List.mem_cons.mp hp with rfl | hmem
        · intro hc
          rcases List.mem_cons.mp hc with rfl | hcq
          · exact h rfl
          · exact ih q (hs ▸ List.mem_cons_self q qs) hcq
        · exact ih p (hs ▸ List.mem_cons_of_mem q hmem)

theorem jsSplitChar_of_not_mem {c : Char} {p : List Char} (h : c ∉ p) :
    jsSplitChar c p = [p] := by
  induction p with
  | nil => rfl
  | cons x xs ih =>
    have hx : ¬ x = c := fun hxc => h (hxc ▸ List.mem_cons_self x xs)
    have hxs : c ∉ xs := fun hc => h (List.mem_cons_of_mem x hc)
    simp only [jsSplitChar, if_neg hx, ih hxs]

theorem jsSplitChar_append_cons {c : Char} {p : List Char} (h : c ∉ p)
    (l : List Char) :
    jsSplitChar c (p ++ c :: l) = p :: jsSplitChar c l := by
  induction p with
  | nil => simp [jsSplitChar]
  | cons x xs ih =>
    have hx : ¬ x = c := fun hxc => h (hxc ▸ List.mem_cons_self x xs)
    have hxs : c ∉ xs := fun hc => h (List.mem_cons_of_mem x hc)
    rw [List.cons_append]
    simp only [jsSplitChar, if_neg hx]
    rw [ih hxs]

theorem jsSplitChar_joinChar {c : Char} :
    ∀ {ps : List (List Char)}, ps ≠ [] → (∀ p ∈ ps, c ∉ p) →
      jsSplitChar c (joinChar c ps) = ps := by
  intro ps
  induction ps with
  | nil => intro h; exact absurd rfl h
  | cons p ps ih =>
    intro _ hall
    rcases ps with _ | ⟨q, qs⟩
    · exact jsSplitChar_of_not_mem (hall p (List.mem_cons_self p []))
    · rw [joinChar]
      rw [jsSplitChar_append_cons (hall p (List.mem_cons_self p _))]
      rw [ih (by simp) (fun r hr => hall r (List.mem_cons_of_mem p hr))]

theorem dropWhile_idem (q : α → Bool) (l : List α) :
    (l.dropWhile q).dropWhile q = l.dropWhile q := by
  induction l with
  | nil => rfl
  | cons a l ih =>
    rw [List.dropWhile_cons]
    by_cases h : q a = true
    · rw [if_pos h]; exact ih
    · rw [if_neg h, List.dropWhile_cons, if_neg h]

theorem dropWhile_eq_self_of_starts (q : α → Bool) {m t : List α}
    (hm : m.dropWhile q = m) (ht : t <+: m) : t.dropWhile q = t := by
  rcases t with _ | ⟨a, t'⟩
  · rfl
  · obtain ⟨r, hr⟩ := ht
    have hqa : q a = false := by
      by_contra hq
      have hqa : q a = true := by
        rcases hqb : q a with _ | _
        · exact absurd hqb hq
        · rfl
      rw [← hr, List.cons_append, List.dropWhile_cons, if_pos hqa] at hm
      have hlen := ((List.dropWhile_suffix q
        (l := t' ++ r)).sublist).length_le
      have := congrArg List.length hm
      simp at this hlen
      omega
    rw [List.dropWhile_cons, if_neg (by simp [hqa])]

theorem jsTrimChars_idem (l : List Char) :
    jsTrimChars (jsTrimChars l) = jsTrimChars l := by
  unfold jsTrimChars
  set m := l.dropWhile jsIsSpace with hm
  have hmfix : m.dropWhile jsIsSpace = m := dropWhile_idem jsIsSpace l
  set t := (m.reverse.dropWhile jsIsSpace).reverse with ht
  have htrev : t.reverse = m.reverse.dropWhile jsIsSpace := by
    rw [ht, List.reverse_reverse]
  have htpre : t <+: m := by
    rw [← List.reverse_suffix, htrev]
    exact List.dropWhile_suffix jsIsSpace
  have ht1 : t.dropWhile jsIsSpace = t :=
    dropWhile_eq_self_of_starts jsIsSpace hmfix htpre
  rw [ht1, htrev, dropWhile_idem, ← htrev, List.reverse_reverse]

theorem mem_jsTrimChars {a : Char} {l : List Char}
    (h : a ∈ jsTrimChars l) : a ∈ l := by
  unfold jsTrimChars at h
  rw [List.mem_reverse] at h
  have h2 := (List.dropWhile_sublist jsIsSpace).mem h
  rw [List.mem_reverse] at h2
  exact (List.dropWhile_sublist jsIsSpace).mem h2

theorem normalizeParts_props (l : List Char) :
    ∀ p ∈ normalizeParts l,
      p ≠ [] ∧ ',' ∉ p ∧ jsTrimChars p = p := by
  intro p hp
  obtain ⟨hmem, hne⟩ := List.mem_filter.mp hp
  obtain ⟨q, hq, hpq⟩ := List.mem_map.mp hmem
  refine ⟨by simpa using hne, ?_, ?_⟩
  · intro hc
    exact not_mem_of_mem_jsSplitChar ',' l q hq
      (mem_jsTrimChars (hpq ▸ hc))
  · rw [← hpq]
    exact jsTrimChars_idem q

theorem normalizeParts_joinChar (ps : List (List Char))
    (hps : ∀ p ∈ ps, p ≠ [] ∧ ',' ∉ p ∧ jsTrimChars p = p) :
    normalizeParts (joinChar ',' ps) = ps := by
  rcases hempty : ps with _ | ⟨p, ps'⟩
  · rfl
  · rw [← hempty]
    have hsplit : jsSplitChar ',' (joinChar ',' ps) = ps :=
      jsSplitChar_joinChar (by rw [hempty]; simp)
        (fun p hp => (hps p hp).2.1)
    unfold normalizeParts
    rw [hsplit]
    have hmap : ps.map jsTrimChars = ps :=
      List.map_congr_left (fun p hp => (hps p hp).2.2) |>.trans (List.map_id ps)
    rw [hmap]
    apply List.filter_eq_self.mpr
    intro p hp
    simpa using (hps p hp).1

theorem normalizeChars_idem (l : List Char) :
    normalizeChars (normalizeChars l) = normalizeChars l := by
  unfold normalizeChars
  rw [normalizeParts_joinChar (normalizeParts l) (normalizeParts_props l)]

/-- `normalizeClassesString` is idempotent. -/
theorem normalizeClassesString_idem (s : String) :
    normalizeClassesString (normalizeClassesString s) =
      normalizeClassesString s := by
  unfold normalizeClassesString
  exact congrArg String.mk (normalizeChars_idem s.data)

theorem cascadeDelete_projects (imgs : List ImageRecord) :
    ∀ st, (cascadeDelete imgs st).projects = st.projects := by
  induction imgs with
  | nil => intro st; rfl
  | cons img rest ih =>
    intro st
    simp only [cascadeDelete]
    rw [ih, cascade_ann_fold]

theorem importFold_projects (now pid : Nat) (paths : List String) :
    ∀ (acc : List String × Nat × DB),
      ((paths.foldl (importStep now pid) acc).2.2).projects =
        acc.2.2.projects := by
  induction paths with
  | nil => intro acc; rfl
  | cons p ps ih =>
    intro acc
    rw [List.foldl_cons, ih]
    unfold importStep
    by_cases hc : acc.1.contains p = true
    · rw [if_pos hc]
    · rw [if_neg hc]

/-- C8: `normalizeClassesString` is idempotent, and the invariant that
every stored project's `classes` field is a fixed point of
`normalizeClassesString` is preserved by every storage operation
(`createProject` and `updateProject` normalize before storing; no other
operation writes the field). -/
theorem classes_normalized_invariant :
    (∀ v, normalizeClassesString (normalizeClassesString v) =
      normalizeClassesString v) ∧
    ∀ (op : StorageOp) (s : DB), ClassesNormalized s →
      ClassesNormalized (runStorageOp op s).2 := by
  refine ⟨normalizeClassesString_idem, ?_⟩
  intro op s h
  cases op <;>
    simp only [runStorageOp, getProjects, getProject, createProject,
      updateProject, deleteProject, getImages, uploadImages,
      importImagesFromFolder, getImageBlob, getAnnotations,
      createAnnotation, updateAnnotation, deleteAnnotation, exportNeurova,
      clearAllLocalData]
  case getProjects => exact h
  case getProject id =>
    rcases hf : s.projects.find? (fun p => p.id = id) with _ | p <;>
      simp only [hf] <;> exact h
  case createProject now name d c =>
    intro p hp
    rcases List.mem_append.mp hp with hmem | hnew
    · exact h p hmem
    · rcases List.mem_singleton.mp hnew with rfl
      exact normalizeClassesString_idem c
  case updateProject now id n d c =>
    rcases hf : s.projects.find? (fun p => p.id = id) with _ | existing <;>
      simp only [hf]
    · exact h
    · intro p hp
      obtain ⟨q, hq, hpq⟩ := List.mem_map.mp hp
      split at hpq
      · subst hpq
        rcases c with _ | cc
        · exact h existing (List.mem_of_find?_eq_some hf)
        · exact normalizeClassesString_idem cc
      · subst hpq
        exact h q hq
  case deleteProject id =>
    intro p hp
    rw [cascadeDelete_projects] at hp
    exact h p (List.mem_filter.mp hp).1
  case getImages pid => exact h
  case uploadImages now pid files =>
    rw [uploadImages_foldl]
    intro p hp
    exact h p hp
  case importImagesFromFolder now pid paths =>
    rcases hf : s.projects.find? (fun p => p.id = pid) with _ | project <;>
      simp only [hf]
    · exact h
    · intro p hp
      rw [importFold_projects] at hp
      obtain ⟨q, hq, hpq⟩ := List.mem_map.mp hp
      split at hpq
      · subst hpq
        exact h project (List.mem_of_find?_eq_some hf)
      · subst hpq
        exact h q hq
  case getImageBlob imageId =>
    rcases hf : s.images.find? (fun im => im.id = imageId) with _ | im
    · simp only [hf]; exact h
    · rcases hb : im.blob with _ | b
      · rcases hh : im.file_handle with _ | fh <;>
          simp only [hf, hb, hh] <;> exact h
      · simp only [hf, hb]; exact h
  case getAnnotations imageId => exact h
  case createAnnotation now imageId d =>
    intro p hp
    exact h p hp
  case updateAnnotation now annId d =>
    rcases hf : s.annotations.find? (fun a => a.id = annId) with _ | a <;>
      simp only [hf]
    · exact h
    · intro p hp
      exact h p hp
  case deleteAnnotation annId =>
    intro p hp
    exact h p hp
  case exportNeurova pid =>
    rcases hf : s.projects.find? (fun p => p.id = pid) with _ | p <;>
      simp only [hf] <;> exact h
  case clearAllLocalData =>
    intro p hp
    simp [emptyDB] at hp

/-- Witness for `classes_normalized_invariant`: a concrete normalization,
its idempotence, and preservation through a concrete `createProject`. -/
theorem classes_normalized_invariant_witness :
    normalizeClassesString " cat , dog ,, " = "cat,dog" ∧
    normalizeClassesString (normalizeClassesString " cat , dog ,, ") =
      normalizeClassesString " cat , dog ,, " ∧
    ClassesNormalized
      (runStorageOp (.createProject 10 "p" none " cat , dog ,, ")
        emptyDB).2 :=
  ⟨rfl,
   classes_normalized_invariant.1 " cat , dog ,, ",
   classes_normalized_invariant.2 (.createProject 10 "p" none " cat , dog ,, ")
     emptyDB (by unfold ClassesNormalized; decide)⟩

/-! ## CRUD surface -/

/-- C4 counterexample: no storage operation updates an image record; the
API surface has no update (or dedicated delete) for images, so "four
operations per entity" fails for the image entity. -/
theorem crud_image_update_cex :
    ¬ ∃ op : StorageOp, crudOf op = some (Entity.image, CrudKind.update) := by
  rintro ⟨op, hop⟩
  cases op <;> simp [crudOf] at hop

/-- C4 (amended): the storage layer offers all four CRUD operations for
projects and for annotations, but only create and read for images (image
deletion happens only through the project cascade). -/
theorem crud_surface_amended :
    (∀ k : CrudKind, ∃ op : StorageOp, crudOf op = some (.project, k)) ∧
    (∀ k : CrudKind, ∃ op : StorageOp, crudOf op = some ( Entity.annotation, k)) ∧
    (∃ op : StorageOp, crudOf op = some (.image, .create)) ∧
    (∃ op : StorageOp, crudOf op = some (.image, .read)) ∧
    (¬ ∃ op : StorageOp, crudOf op = some (.image, .update)) ∧
    (¬ ∃ op : StorageOp, crudOf op = some (.image, .delete)) := by
  refine ⟨?_, ?_, ⟨.uploadImages 0 0 [], rfl⟩, ⟨.getImages 0, rfl⟩, ?_, ?_⟩
  · intro k
    cases k
    · exact ⟨.createProject 0 "" none "", rfl⟩
    · exact ⟨.getProjects, rfl⟩
    · exact ⟨.updateProject 0 0 none none none, rfl⟩
    · exact ⟨.deleteProject 0, rfl⟩
  · intro k
    cases k
    · exact ⟨ StorageOp.createAnnotation 0 0 ⟨0, 0, 0, 0, 0⟩, rfl⟩
    · exact ⟨.getAnnotations 0, rfl⟩
    · exact ⟨ StorageOp.updateAnnotation 0 0 ⟨0, 0, 0, 0, 0⟩, rfl⟩
    · exact ⟨ StorageOp.deleteAnnotation 0, rfl⟩
  · rintro ⟨op, hop⟩
    cases op <;> simp [crudOf] at hop
  · rintro ⟨op, hop⟩
    cases op <;> simp [crudOf] at hop

/-- Witness for `crud_surface_amended`: a concrete create-image
operation. -/
theorem crud_surface_amended_witness :
    ∃ op : StorageOp, crudOf op = some (Entity.image, CrudKind.create) :=
  crud_surface_amended.2.2.1

/-! ## Zip export -/

theorem labelName_inj {a b : String}
    (h : "labels/" ++ a ++ ".txt" = "labels/" ++ b ++ ".txt") : a = b := by
  have hd := congrArg String.data h
  simp only [String.data_append] at hd
  have h1 := List.append_cancel_right hd
  have h2 := List.append_cancel_left h1
  cases a
  cases b
  exact congrArg String.mk h2

theorem classesName_ne_labelName (stem : String) :
    ("classes.txt" : String) ≠ "labels/" ++ stem ++ ".txt" := by
  intro h
  have hd := congrArg String.data h
  simp only [String.data_append] at hd
  have hh := congrArg List.head? hd
  simp at hh

/-- Folding `zipFile` over images whose label-file names are fresh and
pairwise distinct appends exactly one entry per annotated image. -/
theorem exportLabelFiles_fresh (s : DB) :
    ∀ (imgs : List Image) (z : List (String × String)),
      (∀ im ∈ imgs, (getAnnotationsList im.id s).length ≠ 0 →
        ∀ e ∈ z, e.1 ≠ "labels/" ++ neurovaStem im.filename ++ ".txt") →
      (imgs.filter (fun im =>
          decide ((getAnnotationsList im.id s).length ≠ 0))).Pairwise
        (fun i1 i2 => neurovaStem i1.filename ≠ neurovaStem i2.filename) →
      exportLabelFiles s imgs z =
        z ++ (imgs.filter (fun im =>
            decide ((getAnnotationsList im.id s).length ≠ 0))).map
          (fun im => ("labels/" ++ neurovaStem im.filename ++ ".txt",
            labelContent (getAnnotationsList im.id s))) := by
  intro imgs
  induction imgs with
  | nil => intro z _ _; simp [exportLabelFiles]
  | cons im rest ih =>
    intro z hfresh hpw
    unfold exportLabelFiles at ih ⊢
    rw [List.foldl_cons]
    by_cases h0 : (getAnnotationsList im.id s).length = 0
    · rw [if_pos h0]
      rw [List.filter_cons_of_neg (by simp [h0])] at hpw ⊢
      exact ih z (fun im' hm' => hfresh im' (List.mem_cons_of_mem im hm'))
        hpw
    · rw [if_neg h0]
      rw [List.filter_cons_of_pos (by simp [h0])] at hpw ⊢
      obtain ⟨hhead, htail⟩ := List.pairwise_cons.mp hpw
      have hany : z.any (fun e =>
          e.1 = "labels/" ++ neurovaStem im.filename ++ ".txt") = false := by
        rw [List.any_eq_false]
        intro e he
        simpa using hfresh im (List.mem_cons_self im rest) h0 e he
      rw [zipFile, if_neg (by simp [hany])]
      rw [ih (z ++ [("labels/" ++ neurovaStem im.filename ++ ".txt",
        labelContent (getAnnotationsList im.id s))]) ?hfresh htail]
      · rw [List.map_cons, List.append_assoc]
        rfl
      case hfresh =>
        intro im' hm' hann' e he
        rcases List.mem_append.mp he with hz | hentry
        · exact hfresh im' (List.mem_cons_of_mem im hm') hann' e hz
        · rcases List.mem_singleton.mp hentry with rfl
          intro heq
        -- the fresh entry's name would force equal stems
          have hstem := labelName_inj heq
          have him' : im' ∈ rest.filter (fun im =>
              decide ((getAnnotationsList im.id s).length ≠ 0)) :=
            List.mem_filter.mpr ⟨hm', by simpa using hann'⟩
          exact hhead im' him' hstem

/-- C3 (amended): `exportNeurova(id)` throws `'Project not found'` iff no
project with key `id` exists, reads only; the zip's `classes.txt` holds
the normalized class names one per line (empty content when there are no
classes), and — provided the project's annotated images have pairwise
distinct stems — the archive is exactly `classes.txt` plus one
`labels/<stem>.txt` entry per annotated image, whose lines are
`class_id x_center y_center width height` for that image's annotations;
images without annotations contribute no entry.  (When two annotated
images share a stem, `zip.file` overwrites and only one entry remains.) -/
theorem exportNeurova_spec (projectId : Nat) (s : DB) :
    ((exportNeurova projectId s).2 = s) ∧
    ((exportNeurova projectId s).1 = Except.error "Project not found" ↔
      ∀ p ∈ s.projects, p.id ≠ projectId) ∧
    classesContent [] = "" ∧
    (∀ project, s.projects.find? (fun p => p.id = projectId) = some project →
      ((getImagesList projectId s).filter (fun im =>
          decide ((getAnnotationsList im.id s).length ≠ 0))).Pairwise
        (fun i1 i2 => neurovaStem i1.filename ≠ neurovaStem i2.filename) →
      (exportNeurova projectId s).1 =
        Except.ok
          (("classes.txt", classesContent (exportClasses project.classes)) ::
            ((getImagesList projectId s).filter (fun im =>
                decide ((getAnnotationsList im.id s).length ≠ 0))).map
              (fun im => ("labels/" ++ neurovaStem im.filename ++ ".txt",
                labelContent (getAnnotationsList im.id s))))) := by
  unfold exportNeurova
  rcases h : s.projects.find? (fun p => p.id = projectId) with _ | project <;>
    rw [h]
  · refine ⟨rfl, ⟨fun _ => ?_, fun _ => rfl⟩, rfl, fun q hq => ?_⟩
    · intro p hp hid
      have := List.find?_eq_none.mp h p hp
      simp [hid] at this
    · exact absurd hq (by simp)
  · refine ⟨rfl, ⟨fun hc => ?_, fun hall => ?_⟩, rfl, fun q hq hpw => ?_⟩
    · exact absurd hc (by simp)
    · have hmem := List.mem_of_find?_eq_some h
      have hid : project.id = projectId := by simpa using List.find?_some h
      exact absurd hid (hall project hmem)
    · cases hq
      dsimp only
      have hz0 : zipFile "classes.txt"
          (classesContent (exportClasses project.classes)) [] =
          [("classes.txt", classesContent (exportClasses project.classes))] := by
        rw [zipFile]
        simp
      rw [hz0]
      rw [exportLabelFiles_fresh s (getImagesList projectId s)
        [("classes.txt", classesContent (exportClasses project.classes))]
        ?fresh hpw]
      · rfl
      case fresh =>
        intro im _ _ e he
        rcases List.mem_singleton.mp he with rfl
        exact classesName_ne_labelName (neurovaStem im.filename)

/-- The database refuting C3 as stated: two annotated images of project 1
whose filenames `a.jpg` and `b/a.png` share the stem `a`. -/
def exportCexDB : DB :=
  { projects := [⟨1, "p", none, "cat,dog", 10, 10, none⟩],
    images :=
      [⟨1, 1, "a.jpg", "a.jpg", none, none, 20, some 7, none⟩,
       ⟨2, 1, "b/a.png", "b/a.png", none, none, 20, some 8, none⟩],
    annotations :=
      [⟨1, 1, 0, 0, 0, 1, 1, 30, 30⟩,
       ⟨2, 2, 1, 0, 0, 1, 1, 31, 31⟩],
    nextProjectId := 2, nextImageId := 3, nextAnnId := 3 }

/-- C3 counterexample: both images of `exportCexDB`'s project 1 have an
annotation, yet the archive holds a single `labels/a.txt` entry — the
later image overwrote the earlier one's label file, whose line
`0 0 0 1 1` appears nowhere in the archive. -/
theorem exportNeurova_cex :
    (exportNeurova 1 exportCexDB).1 =
      Except.ok
        [("classes.txt", "cat\ndog\n"), ("labels/a.txt", "1 0 0 1 1\n")] ∧
    getAnnotationsList 1 exportCexDB = [⟨1, 1, 0, 0, 0, 1, 1, 30, 30⟩] ∧
    getAnnotationsList 2 exportCexDB = [⟨2, 2, 1, 0, 0, 1, 1, 31, 31⟩] ∧
    annLine ⟨1, 1, 0, 0, 0, 1, 1, 30, 30⟩ = "0 0 0 1 1" ∧
    neurovaStem "a.jpg" = "a" ∧ neurovaStem "b/a.png" = "a" :=
  ⟨rfl, rfl, rfl, rfl, rfl, rfl⟩

/-- Witness for `exportNeurova_spec` at `cascadeWitnessDB`, whose two
annotated images of project 1 have the distinct stems `b` and `a`. -/
theorem exportNeurova_spec_witness :
    (exportNeurova 1 cascadeWitnessDB).1 =
      Except.ok
        [("classes.txt", "cat\n"),
         ("labels/b.txt", "0 0 0 1 1\n"),
         ("labels/a.txt", "0 0 0 1 1\n")] := by
  have h := (exportNeurova_spec 1 cascadeWitnessDB).2.2.2
    ⟨1, "p1", none, "cat", 10, 10, none⟩ rfl (by decide)
  rw [h]
  rfl
